import Mathlib

/-!
Verification of the spreadsheet ingestion / reconciliation / query core
(`analise-siaa`): a shallow embedding of the App component's header
detection, row normalization, merge effects (first-column-key and
content-hash revisions), query pipeline (filter + sort) and of the
DataTable virtualization calculations, together with theorems checking
the specification's claims about them.
-/

namespace SIAA

/-- A spreadsheet cell value: `string | number | boolean | null`
(JS `undefined` is collapsed into `null`; the code never distinguishes
them — every test is `== null` or `!== null && !== undefined`). -/
inductive Cell where
  | null
  | num (n : Int)
  | str (s : String)
  | boolean (b : Bool)
deriving DecidableEq, Repr

/-- JS `String(v)` coercion. -/
def Cell.toStr : Cell → String
  | .null => "null"
  | .num n => toString n
  | .str s => s
  | .boolean b => cond b "true" "false"

/-- JS `typeof cell === 'string'`. -/
def Cell.isStr : Cell → Bool
  | .str _ => true
  | _ => false

/-- JS `s.trim()` (whitespace stripped from both ends), written over the
character list so that it evaluates by kernel reduction. -/
def jsTrim (s : String) : String :=
  String.mk (((s.data.dropWhile Char.isWhitespace).reverse.dropWhile
    Char.isWhitespace).reverse)

/-- JS `s.toLowerCase()` over the character list. -/
def jsToLower (s : String) : String :=
  String.mk (s.data.map Char.toLower)

/-- JS `s.substring(0, n)` over the character list. -/
def jsTake (s : String) (n : Nat) : String :=
  String.mk (s.data.take n)

/-- Splitter for JS `s.split(';')`: accumulates the current segment in
reverse; a separator flushes it (`""` splits to `[""]`, like JS). -/
def splitSemiAux : List Char → List Char → List String
  | [], acc => [String.mk acc.reverse]
  | c :: rest, acc =>
    if c = ';' then String.mk acc.reverse :: splitSemiAux rest []
    else splitSemiAux rest (c :: acc)

/-- JS `s.split(';')`. -/
def jsSplitSemi (s : String) : List String :=
  splitSemiAux s.data []

/-- `cell !== null && cell !== undefined && String(cell).trim() !== ''`
(the valid-cell test used by the header detector). -/
def cellFilled (c : Cell) : Bool :=
  c ≠ Cell.null && jsTrim c.toStr ≠ ""

/-- `row.filter(cell => cell !== null && ... && String(cell).trim() !== '')`. -/
def validCells (row : List Cell) : List Cell :=
  row.filter cellFilled

/-- `validCells.length >= 3 && validCells.every(cell => typeof cell === 'string')`. -/
def isStringHeaderRow (row : List Cell) : Bool :=
  decide ((validCells row).length ≥ 3) && (validCells row).all Cell.isStr

/-- Error taxonomy of the import pipeline (§7 of the spec). -/
inductive ImportError where
  | malformedInput
  | headerNotFound
  | noValidColumns
deriving DecidableEq, Repr

instance exceptDecEq {ε α : Type} [DecidableEq ε] [DecidableEq α] :
    DecidableEq (Except ε α)
  | .error e, .error f =>
    if h : e = f then .isTrue (by rw [h])
    else .isFalse (by intro hc; injection hc with h2; exact h h2)
  | .error _, .ok _ => .isFalse (fun hc => Except.noConfusion hc)
  | .ok _, .error _ => .isFalse (fun hc => Except.noConfusion hc)
  | .ok a, .ok b =>
    if h : a = b then .isTrue (by rw [h])
    else .isFalse (by intro hc; injection hc with h2; exact h h2)

/-- The fallback scan `for (let i = 0; i < Math.min(5, allData.length); i++)`
looking for the first row with at least 2 valid cells; called on
`allData.take 5` with start index 0. -/
def scanRows (rows : List (List Cell)) (i : Nat) : Option Nat :=
  match rows with
  | [] => none
  | r :: rest => if (validCells r).length ≥ 2 then some i else scanRows rest (i + 1)

/-- Header-row detection (`handleFileChange`, part_003 lines 182–233):
fewer than 2 rows is malformed; try index 1 with the ≥3-string-cells rule,
then index 2, then the bounded fallback scan; otherwise `HeaderNotFound`. -/
def detectHeaderRow (allData : List (List Cell)) : Except ImportError (Nat × List Cell) :=
  if allData.length < 2 then .error .malformedInput
  else if isStringHeaderRow (allData.getD 1 []) then .ok (1, allData.getD 1 [])
  else if allData.length > 2 && isStringHeaderRow (allData.getD 2 []) then .ok (2, allData.getD 2 [])
  else
    match scanRows (allData.take 5) 0 with
    | some i => .ok (i, allData.getD i [])
    | none => .error .headerNotFound

/-- `header === null || header === undefined || String(header).trim() === ''`. -/
def cellBlank (c : Cell) : Bool :=
  c = Cell.null || jsTrim c.toStr = ""

/-- `lastValidIndex`: index of the first blank header cell, defaulting to the
row length (part_003 lines 236–244). -/
def lastValidIndex (potentialHeaders : List Cell) : Nat :=
  match potentialHeaders.findIdx? cellBlank with
  | some i => i
  | none => potentialHeaders.length

/-- `potentialHeaders.slice(0, lastValidIndex).map(String)`. -/
def headerSpan (potentialHeaders : List Cell) : List String :=
  (potentialHeaders.take (lastValidIndex potentialHeaders)).map Cell.toStr

/-- Header detection followed by span truncation and the `NoValidColumns`
check (part_003 lines 182–251). -/
def detectHeader (allData : List (List Cell)) : Except ImportError (Nat × List String) :=
  match detectHeaderRow allData with
  | .error e => .error e
  | .ok (idx, potentialHeaders) =>
    let headers := headerSpan potentialHeaders
    if headers.length = 0 then .error .noValidColumns
    else .ok (idx, headers)

/-- A row is a JS object: an insertion-ordered association list with unique
keys (uniqueness is maintained by `assocSet`). -/
abbrev Row := List (String × Cell)

/-- JS object/Map assignment `m[k] = v` / `m.set(k, v)`: an existing key
keeps its position and has its value replaced; a fresh key is appended. -/
def assocSet {κ ν : Type} [DecidableEq κ] (m : List (κ × ν)) (k : κ) (v : ν) :
    List (κ × ν) :=
  if m.any (fun p => p.1 = k) then
    m.map (fun p => if p.1 = k then (k, v) else p)
  else m ++ [(k, v)]

/-- JS `m.has(k)` / `k in obj`. -/
def assocHas {κ ν : Type} [DecidableEq κ] (m : List (κ × ν)) (k : κ) : Bool :=
  m.any (fun p => p.1 = k)

/-- JS `new Map(pairs)`: iterate `set` over the pairs. -/
def assocOfList {κ ν : Type} [DecidableEq κ] (l : List (κ × ν)) : List (κ × ν) :=
  l.foldl (fun m p => assocSet m p.1 p.2) []

/-- JS `row[key]`, with an absent key reading as `null`/`undefined`. -/
def rowGet (r : Row) (k : String) : Cell :=
  match r.find? (fun p => p.1 = k) with
  | some p => p.2
  | none => Cell.null

/-- `rowObject = {}; headers.forEach((header, index) => rowObject[header] = rowData[index])`
(part_003 lines 256–261). -/
def buildRow (headers : List String) (rowData : List Cell) : Row :=
  headers.enum.foldl (fun r p => assocSet r p.2 (rowData.getD p.1 Cell.null)) []

/-- JS `Object.values(row)`. -/
def rowValues (r : Row) : List Cell :=
  r.map (fun p => p.2)

/-- Row normalization (part_003 lines 254–265): build a record per data row,
then drop rows whose every value is null/absent. -/
def normalizeRows (headers : List String) (dataRows : List (List Cell)) : List Row :=
  (dataRows.map (buildRow headers)).filter
    (fun row => (rowValues row).any (fun v => v ≠ Cell.null))

/-- `Table` / `SheetData`: ordered headers plus a row sequence. -/
structure SheetData where
  headers : List String
  rows : List Row
deriving DecidableEq, Repr

/-- Reconciliation report: identifiers of updated and newly added rows. -/
structure MergeReport where
  updated : List String
  new : List String
deriving DecidableEq, Repr

/-- `SchemaMismatch`, surfacing both header lists (the alert interpolates
`existingHeaders.join(', ')` and `newHeaders.join(', ')`). -/
inductive MergeError where
  | schemaMismatch (existingHeaders newHeaders : List String)
deriving DecidableEq, Repr

/-- `existingHeaders.length === newHeaders.length && existingHeaders.every((h, i) => h === newHeaders[i])`
(negation of the mismatch test at part_003 lines 361–362). -/
def headersMatch (a b : List String) : Bool :=
  decide (a.length = b.length) && (a.zip b).all (fun p => p.1 = p.2)

/-- The identity of a row under the first-column-key policy: `newRow[idKey]`. -/
def keyOf (idKey : String) (r : Row) : Cell :=
  rowGet r idKey

/-- One step of the first-column-key merge loop (part_003 lines 375–385):
skip null/absent keys, classify against the current map, store the row
(the source's `newRowId` local is inlined; it is pure). -/
def mergeStep (idKey : String)
    (acc : List (Cell × Row) × List String × List String) (newRow : Row) :
    List (Cell × Row) × List String × List String :=
  if keyOf idKey newRow = Cell.null then acc
  else if assocHas acc.1 (keyOf idKey newRow) then
    (assocSet acc.1 (keyOf idKey newRow) newRow,
     acc.2.1 ++ [(keyOf idKey newRow).toStr], acc.2.2)
  else
    (assocSet acc.1 (keyOf idKey newRow) newRow, acc.2.1,
     acc.2.2 ++ [(keyOf idKey newRow).toStr])

/-- The merge effect, first-column-key revision (part_003 lines 357–403):
check headers, build the `Map` from the existing rows keyed by the first
header column, fold the incoming rows through `mergeStep`, and return the
map's values as the merged rows plus the report. -/
def mergeFirstColKey (existing incoming : SheetData) :
    Except MergeError (SheetData × MergeReport) :=
  if !headersMatch existing.headers incoming.headers then
    .error (.schemaMismatch existing.headers incoming.headers)
  else
    let idKey := existing.headers.headD ""
    let initMap := assocOfList (existing.rows.map (fun row => (keyOf idKey row, row)))
    let res := incoming.rows.foldl (mergeStep idKey) (initMap, [], [])
    .ok ({ headers := existing.headers, rows := res.1.map (fun p => p.2) },
         { updated := res.2.1, new := res.2.2 })

/-- `createRowHash` (part_003 lines 1245–1252): all column values coerced to
string with null→empty, joined by `'|'`. -/
def createRowHash (row : Row) (headers : List String) : String :=
  String.intercalate "|"
    (headers.map (fun h =>
      match rowGet row h with
      | Cell.null => ""
      | v => v.toStr))

/-- One step of the content-hash merge loop (part_003 lines 1260–1269):
classify the incoming row's hash against the current map (the report keeps
the first 50 characters of the hash) and store the row under its hash
(the source's `newRowHash` local is inlined; it is pure). -/
def hashMergeStep (headers : List String)
    (acc : List (String × Row) × List String × List String) (newRow : Row) :
    List (String × Row) × List String × List String :=
  if assocHas acc.1 (createRowHash newRow headers) then
    (assocSet acc.1 (createRowHash newRow headers) newRow,
     acc.2.1 ++ [jsTake (createRowHash newRow headers) 50], acc.2.2)
  else
    (assocSet acc.1 (createRowHash newRow headers) newRow, acc.2.1,
     acc.2.2 ++ [jsTake (createRowHash newRow headers) 50])

/-- The merge effect, content-hash revision (part_003 lines 1232–1287). -/
def mergeContentHash (existing incoming : SheetData) :
    Except MergeError (SheetData × MergeReport) :=
  if !headersMatch existing.headers incoming.headers then
    .error (.schemaMismatch existing.headers incoming.headers)
  else
    let initMap := assocOfList
      (existing.rows.map (fun row => (createRowHash row existing.headers, row)))
    let res := incoming.rows.foldl (hashMergeStep existing.headers) (initMap, [], [])
    .ok ({ headers := existing.headers, rows := res.1.map (fun p => p.2) },
         { updated := res.2.1, new := res.2.2 })

/-- The stored state seen by the merge effect: the `allSheets` record keyed
by sheet key (metadata timestamps omitted — no claim mentions them). -/
abbrev SheetStore := List (String × SheetData)

/-- The state-level merge effect: on a missing sheet or a header mismatch
the store is returned unchanged and no report is produced; on success the
merged sheet is written back under its key (part_003 lines 343–403). -/
def applyMergeEffect (store : SheetStore) (key : String) (incoming : SheetData) :
    SheetStore × Option MergeReport :=
  match (store.find? (fun p => p.1 = key)).map (fun p => p.2) with
  | none => (store, none)
  | some existingSheet =>
    match mergeFirstColKey existingSheet incoming with
    | .error _ => (store, none)
    | .ok (merged, report) => (assocSet store key merged, some report)

/-! ### Query pipeline (part_003 lines 498–547) -/

/-- JS `haystack.includes(needle)`: substring containment over the
character sequences. -/
def strContains (haystack needle : String) : Bool :=
  haystack.toList.tails.any (fun suffix => needle.toList.isPrefixOf suffix)

/-- The per-column search terms: `String(value).split(';').map(term => term.trim().toLowerCase()).filter(term => term)`. -/
def parseTerms (value : String) : List String :=
  ((jsSplitSemi value).map (fun t => jsToLower (jsTrim t))).filter (fun t => t ≠ "")

/-- `activeFilters = Object.entries(debouncedFilters).filter(([, value]) => value)`. -/
def activeFilters (filters : List (String × String)) : List (String × String) :=
  filters.filter (fun p => p.2 ≠ "")

/-- The row predicate of the filter stage (part_003 lines 505–519). -/
def rowPassesFilters (filters : List (String × String)) (row : Row) : Bool :=
  (activeFilters filters).all (fun p =>
    match rowGet row p.1 with
    | Cell.null => false
    | cv =>
      let cellValueStr := jsToLower cv.toStr
      let searchTerms := parseTerms p.2
      if searchTerms.length = 0 then true
      else searchTerms.any (fun term => strContains cellValueStr term))

/-- The filter stage: rows are filtered only when at least one filter is
active (part_003 lines 501–521). -/
def applyFilters (filters : List (String × String)) (rows : List Row) : List Row :=
  if (activeFilters filters).length > 0 then rows.filter (rowPassesFilters filters)
  else rows

inductive SortDirection where
  | ascending
  | descending
deriving DecidableEq, Repr

structure SortConfig where
  key : String
  direction : SortDirection
deriving DecidableEq, Repr

/-- The sort comparator (part_003 lines 525–542); `aValue`/`bValue` and the
lowercased `valA`/`valB` locals of the source are inlined (they are pure). -/
def compareRows (cfg : SortConfig) (a b : Row) : Int :=
  if rowGet a cfg.key = Cell.null then 1
  else if rowGet b cfg.key = Cell.null then -1
  else
    match rowGet a cfg.key, rowGet b cfg.key with
    | Cell.num x, Cell.num y =>
      if cfg.direction = SortDirection.ascending then x - y else y - x
    | ca, cb =>
      if jsToLower ca.toStr < jsToLower cb.toStr then
        (if cfg.direction = SortDirection.ascending then -1 else 1)
      else if jsToLower ca.toStr > jsToLower cb.toStr then
        (if cfg.direction = SortDirection.ascending then 1 else -1)
      else 0

/-- `processedRows` (part_003 lines 498–547): filter, then stably sort when
a sort config is present (a stable comparison sort models
`Array.prototype.sort`), else return the filtered order unchanged. -/
def processedRows (rows : List Row) (filters : List (String × String))
    (sortConfig : Option SortConfig) : List Row :=
  let filteredRows := applyFilters filters rows
  match sortConfig with
  | some cfg => filteredRows.insertionSort (fun a b => compareRows cfg a b ≤ 0)
  | none => filteredRows

/-! ### Viewport windower (part_001 lines 22–23 and 159–170) -/

def ROW_HEIGHT : Int := 37

def OVERSCAN_COUNT : Int := 3

/-- `Math.max(0, Math.floor(scrollTop / ROW_HEIGHT) - OVERSCAN_COUNT)`,
with the row height and overscan as parameters. -/
def vwStartIndex (h o s : Int) : Int :=
  max 0 (s / h - o)

/-- `Math.ceil(containerHeight / ROW_HEIGHT)` (integer form for a positive
row height and non-negative container height). -/
def vwVisibleCount (h c : Int) : Int :=
  (c + h - 1) / h

/-- `Math.min(totalRows - 1, startIndex + visibleItemCount + OVERSCAN_COUNT * 2)`. -/
def vwEndIndex (h o s c total : Int) : Int :=
  min (total - 1) (vwStartIndex h o s + vwVisibleCount h c + o * 2)

/-- `paddingTop = startIndex * ROW_HEIGHT`. -/
def vwPaddingTop (h o s : Int) : Int :=
  vwStartIndex h o s * h

/-- `paddingBottom = (totalRows - (endIndex + 1)) * ROW_HEIGHT`. -/
def vwPaddingBottom (h o s c total : Int) : Int :=
  (total - (vwEndIndex h o s c total + 1)) * h

/-- `processedRows.slice(startIndex, endIndex + 1)` (both bounds are
non-negative in every reachable state, where JS slice is drop-then-take). -/
def vwVisibleRows (rows : List Row) (h o s c : Int) : List Row :=
  let start := (vwStartIndex h o s).toNat
  let stop := (vwEndIndex h o s c (rows.length : Int) + 1).toNat
  (rows.drop start).take (stop - start)

/-! ### Claim-level (specification-side) definitions -/

/-- JS `typeof v === 'number'`. -/
def Cell.isNum : Cell → Bool
  | .num _ => true
  | _ => false

/-- Three-way case-insensitive-ready lexicographic comparison used to state
the sort claim: −1 / 1 / 0 for less / greater / equal. -/
def specLexCmp (x y : String) : Int :=
  if x < y then -1 else if y < x then 1 else 0

/-- The filter-stage claim's row characterization, written from the claim's
words: for every column with a non-empty filter string the row has a
non-null value whose lowercased string representation contains at least one
of that column's parsed terms. -/
def claimPasses (filters : List (String × String)) (row : Row) : Prop :=
  ∀ p ∈ filters, p.2 ≠ "" →
    rowGet row p.1 ≠ Cell.null ∧
    ∃ t ∈ parseTerms p.2, strContains (jsToLower (rowGet row p.1).toStr) t = true

/-- The amended filter-stage characterization: a filtered column whose term
list is empty after discarding empty terms is passed by every row with a
non-null value in that column. -/
def claimPassesAmended (filters : List (String × String)) (row : Row) : Prop :=
  ∀ p ∈ filters, p.2 ≠ "" →
    rowGet row p.1 ≠ Cell.null ∧
    (parseTerms p.2 = [] ∨
      ∃ t ∈ parseTerms p.2, strContains (jsToLower (rowGet row p.1).toStr) t = true)

/-! ### Shared lemmas -/

theorem headersMatch_true_iff (a b : List String) : headersMatch a b = true ↔ a = b := by
  induction a generalizing b with
  | nil =>
    cases b with
    | nil => simp [headersMatch]
    | cons y ys => simp [headersMatch]
  | cons x xs ih =>
    cases b with
    | nil => simp [headersMatch]
    | cons y ys =>
      have hxs := ih ys
      simp only [headersMatch, List.zip_cons_cons, List.all_cons, List.length_cons,
        Bool.and_eq_true, decide_eq_true_eq, List.cons.injEq] at hxs ⊢
      constructor
      · rintro ⟨h1, h2, h3⟩
        exact ⟨h2, hxs.mp ⟨by omega, h3⟩⟩
      · rintro ⟨h1, h2⟩
        have := hxs.mpr h2
        exact ⟨by omega, h1, this.2⟩

theorem assocHas_iff_mem {κ ν : Type} [DecidableEq κ] (m : List (κ × ν)) (k : κ) :
    assocHas m k = true ↔ k ∈ m.map Prod.fst := by
  simp only [assocHas, List.any_eq_true, decide_eq_true_eq, List.mem_map]

theorem assocSet_has_eq {κ ν : Type} [DecidableEq κ] (m : List (κ × ν)) (k : κ) (v : ν)
    (h : assocHas m k = true) :
    assocSet m k v = m.map (fun p => if p.1 = k then (k, v) else p) := by
  unfold assocSet
  rw [show (m.any fun p => decide (p.1 = k)) = true from h]
  simp

theorem assocSet_of_not_has {κ ν : Type} [DecidableEq κ] (m : List (κ × ν)) (k : κ) (v : ν)
    (h : assocHas m k = false) :
    assocSet m k v = m ++ [(k, v)] := by
  unfold assocSet
  rw [show (m.any fun p => decide (p.1 = k)) = false from h]
  simp

theorem assocSet_keys_of_has {κ ν : Type} [DecidableEq κ] (m : List (κ × ν)) (k : κ) (v : ν)
    (h : assocHas m k = true) :
    (assocSet m k v).map Prod.fst = m.map Prod.fst := by
  rw [assocSet_has_eq m k v h, List.map_map]
  refine List.map_congr_left (fun p _ => ?_)
  by_cases hpk : p.1 = k
  · simp [hpk]
  · simp [hpk]

theorem assocSet_length_of_has {κ ν : Type} [DecidableEq κ] (m : List (κ × ν)) (k : κ) (v : ν)
    (h : assocHas m k = true) :
    (assocSet m k v).length = m.length := by
  rw [assocSet_has_eq m k v h, List.length_map]

theorem assocHas_assocSet_iff {κ ν : Type} [DecidableEq κ] (m : List (κ × ν)) (k' k : κ)
    (v : ν) :
    assocHas (assocSet m k' v) k = true ↔ (assocHas m k = true ∨ k = k') := by
  by_cases h : assocHas m k' = true
  · rw [assocHas_iff_mem, assocSet_keys_of_has m k' v h, ← assocHas_iff_mem]
    constructor
    · exact Or.inl
    · rintro (hk | rfl)
      · exact hk
      · exact h
  · rw [assocSet_of_not_has m k' v (by simpa using h)]
    rw [assocHas_iff_mem, List.map_append, List.mem_append, ← assocHas_iff_mem]
    simp

theorem foldl_assocSet_append {κ ν : Type} [DecidableEq κ] (l : List (κ × ν)) :
    ∀ acc : List (κ × ν),
      (∀ p ∈ l, assocHas acc p.1 = false) →
      (l.map Prod.fst).Nodup →
      l.foldl (fun m p => assocSet m p.1 p.2) acc = acc ++ l := by
  induction l with
  | nil => intro acc _ _; simp
  | cons p t ih =>
    intro acc hdisj hnodup
    simp only [List.map_cons, List.nodup_cons] at hnodup
    simp only [List.foldl_cons]
    rw [assocSet_of_not_has acc p.1 p.2 (hdisj p (by simp))]
    rw [ih (acc ++ [(p.1, p.2)]) ?_ hnodup.2]
    · simp
    · intro q hq
      have h1 : assocHas acc q.1 = false := hdisj q (by simp [hq])
      have hq1 : q.1 ∈ t.map Prod.fst := List.mem_map.mpr ⟨q, hq, rfl⟩
      have h2 : ¬(p.1 = q.1) := by
        intro hcontra
        rw [hcontra] at hnodup
        exact hnodup.1 hq1
      simp only [assocHas, List.any_eq_false, decide_eq_true_eq] at h1 ⊢
      intro x hx
      rcases List.mem_append.mp hx with hx | hx
      · exact h1 x hx
      · simp only [List.mem_singleton] at hx
        subst hx
        exact h2

theorem assocOfList_eq_self {κ ν : Type} [DecidableEq κ] (l : List (κ × ν))
    (hnodup : (l.map Prod.fst).Nodup) :
    assocOfList l = l := by
  have := foldl_assocSet_append l [] (by intro p _; rfl) hnodup
  simpa [assocOfList] using this

theorem intDiv_bounds (s h : Int) (hh : 0 < h) :
    (s / h) * h ≤ s ∧ s < (s / h + 1) * h := by
  have h1 := Int.ediv_add_emod s h
  have h2 := Int.emod_nonneg s (by omega : h ≠ 0)
  have h3 := Int.emod_lt_of_pos s hh
  constructor
  · linarith [h1, h2]
  · linarith [h1, h3]

theorem intDiv_eq_floor (s h : Int) (hh : 0 < h) :
    s / h = ⌊(s : ℚ) / (h : ℚ)⌋ := by
  have hq : (0 : ℚ) < (h : ℚ) := by exact_mod_cast hh
  symm
  rw [Int.floor_eq_iff]
  constructor
  · rw [le_div_iff₀ hq]
    exact_mod_cast (intDiv_bounds s h hh).1
  · rw [div_lt_iff₀ hq]
    exact_mod_cast (intDiv_bounds s h hh).2

theorem intCeilDiv_eq_ceil (c h : Int) (hh : 0 < h) :
    (c + h - 1) / h = ⌈(c : ℚ) / (h : ℚ)⌉ := by
  have hq : (0 : ℚ) < (h : ℚ) := by exact_mod_cast hh
  have hb := intDiv_bounds (c + h - 1) h hh
  have hlt : ((c + h - 1) / h - 1) * h < c := by linarith [hb.1]
  have hle : c ≤ ((c + h - 1) / h) * h := by
    have h2 : c - 1 < ((c + h - 1) / h) * h := by linarith [hb.2]
    have h3 := Int.lt_iff_add_one_le.mp h2
    linarith
  symm
  rw [Int.ceil_eq_iff]
  constructor
  · rw [lt_div_iff₀ hq]
    exact_mod_cast hlt
  · rw [div_le_iff₀ hq]
    exact_mod_cast hle

theorem take_lastValidIndex_eq_takeWhile (hs : List Cell) :
    hs.take (lastValidIndex hs) = hs.takeWhile (fun c => !cellBlank c) := by
  induction hs with
  | nil => rfl
  | cons x t ih =>
    by_cases hx : cellBlank x = true
    · simp [lastValidIndex, List.findIdx?_cons, hx, List.takeWhile_cons]
    · have hx' : cellBlank x = false := by simpa using hx
      have hstep : lastValidIndex (x :: t) = lastValidIndex t + 1 := by
        rcases ht : t.findIdx? cellBlank with _ | i <;>
          simp [lastValidIndex, List.findIdx?_cons, hx', ht]
      rw [hstep, List.take_succ_cons, List.takeWhile_cons, hx']
      simp [ih]

theorem getD_take {α : Type} (l : List α) (n i : Nat) (d : α) (h : i < n) :
    (l.take n).getD i d = l.getD i d := by
  induction l generalizing n i with
  | nil => simp
  | cons x t ih =>
    cases n with
    | zero => omega
    | succ n' =>
      cases i with
      | zero => simp
      | succ i' => simpa using ih n' i' (by omega)

theorem scanRows_some_of_first (rows : List (List Cell)) :
    ∀ (j i : Nat), i < rows.length →
      2 ≤ (validCells (rows.getD i [])).length →
      (∀ k < i, (validCells (rows.getD k [])).length < 2) →
      scanRows rows j = some (j + i) := by
  induction rows with
  | nil => intro j i hi; simp at hi
  | cons r rest ih =>
    intro j i hi hgood hbad
    cases i with
    | zero =>
      simp only [List.getD_cons_zero] at hgood
      unfold scanRows
      rw [if_pos hgood]
      rfl
    | succ i' =>
      have hr : (validCells r).length < 2 := by
        simpa using hbad 0 (Nat.succ_pos _)
      unfold scanRows
      rw [if_neg (by omega)]
      rw [ih (j + 1) i' (by simpa using hi) (by simpa using hgood)
        (fun k hk => by simpa using hbad (k + 1) (by omega))]
      congr 1
      omega

theorem scanRows_none_of_all (rows : List (List Cell)) :
    ∀ j : Nat, (∀ r ∈ rows, (validCells r).length < 2) → scanRows rows j = none := by
  induction rows with
  | nil => intro j _; rfl
  | cons r rest ih =>
    intro j hall
    unfold scanRows
    rw [if_neg (by have := hall r (by simp); omega)]
    exact ih (j + 1) (fun r' hr' => hall r' (by simp [hr']))

theorem foldl_assocSet_pairs_eq {κ ν : Type} [DecidableEq κ] (l : List (κ × ν))
    (hnodup : (l.map Prod.fst).Nodup) :
    l.foldl (fun m q => assocSet m q.1 q.2) [] = l := by
  simpa using foldl_assocSet_append l [] (fun p _ => rfl) hnodup

theorem buildRow_eq_zip (headers : List String) (rowData : List Cell)
    (hn : headers.Nodup) :
    buildRow headers rowData
      = headers.enum.map (fun p => (p.2, rowData.getD p.1 Cell.null)) := by
  have hkeys : ((headers.enum.map
      (fun p => (p.2, rowData.getD p.1 Cell.null))).map Prod.fst).Nodup := by
    rw [List.map_map]
    have he : (Prod.fst ∘ fun (p : Nat × String) =>
        (p.2, rowData.getD p.1 Cell.null)) = Prod.snd := by
      funext p; rfl
    rw [he, List.enum_map_snd]
    exact hn
  have key := foldl_assocSet_pairs_eq
    (headers.enum.map (fun p => (p.2, rowData.getD p.1 Cell.null))) hkeys
  rw [List.foldl_map] at key
  simpa [buildRow] using key

theorem assocHas_eq_keys_any {κ ν : Type} [DecidableEq κ] (m : List (κ × ν)) (k : κ) :
    assocHas m k = (m.map Prod.fst).any (fun x => decide (x = k)) := by
  induction m with
  | nil => rfl
  | cons p t ih =>
    simp only [assocHas] at ih ⊢
    simp [List.any_cons, ih]

theorem assocHas_eq_of_keys_eq {κ ν : Type} [DecidableEq κ] (m m' : List (κ × ν))
    (h : m.map Prod.fst = m'.map Prod.fst) (k : κ) :
    assocHas m k = assocHas m' k := by
  rw [assocHas_eq_keys_any, assocHas_eq_keys_any, h]

theorem eq_of_mem_nodup_keys {κ ν : Type} [DecidableEq κ] (m : List (κ × ν))
    (hnodup : (m.map Prod.fst).Nodup) (p q : κ × ν)
    (hp : p ∈ m) (hq : q ∈ m) (hk : p.1 = q.1) : p = q := by
  induction m with
  | nil => cases hp
  | cons x t ih =>
    simp only [List.map_cons, List.nodup_cons] at hnodup
    rcases List.mem_cons.mp hp with rfl | hp'
    · rcases List.mem_cons.mp hq with rfl | hq'
      · rfl
      · exfalso
        apply hnodup.1
        rw [hk]
        exact List.mem_map.mpr ⟨q, hq', rfl⟩
    · rcases List.mem_cons.mp hq with rfl | hq'
      · exfalso
        apply hnodup.1
        rw [← hk]
        exact List.mem_map.mpr ⟨p, hp', rfl⟩
      · exact ih hnodup.2 hp' hq'

theorem assocSet_self {κ ν : Type} [DecidableEq κ] (m : List (κ × ν)) (k : κ) (v : ν)
    (hmem : (k, v) ∈ m) (hnodup : (m.map Prod.fst).Nodup) :
    assocSet m k v = m := by
  have hhas : assocHas m k = true := by
    rw [assocHas_iff_mem]
    exact List.mem_map.mpr ⟨_, hmem, rfl⟩
  rw [assocSet_has_eq m k v hhas]
  conv_rhs => rw [← List.map_id m]
  refine List.map_congr_left (fun p hp => ?_)
  by_cases hpk : p.1 = k
  · rw [if_pos hpk]
    have hpe := eq_of_mem_nodup_keys m hnodup (k, v) p hmem hp (by rw [hpk])
    simpa using hpe
  · rw [if_neg hpk]
    rfl

theorem foldl_assocSet_keys_nodup {κ ν : Type} [DecidableEq κ] (l : List (κ × ν)) :
    ∀ acc : List (κ × ν), (acc.map Prod.fst).Nodup →
      ((l.foldl (fun m p => assocSet m p.1 p.2) acc).map Prod.fst).Nodup := by
  induction l with
  | nil => intro acc hacc; simpa using hacc
  | cons p t ih =>
    intro acc hacc
    simp only [List.foldl_cons]
    apply ih
    by_cases h : assocHas acc p.1 = true
    · rw [assocSet_keys_of_has acc p.1 p.2 h]
      exact hacc
    · rw [assocSet_of_not_has acc p.1 p.2 (by simpa using h)]
      rw [List.map_append]
      have hnotin : p.1 ∉ acc.map Prod.fst :=
        fun hmem => h ((assocHas_iff_mem acc p.1).mpr hmem)
      simp [List.nodup_append, hacc, hnotin]

theorem foldl_assocSet_has {κ ν : Type} [DecidableEq κ] (l : List (κ × ν)) :
    ∀ (acc : List (κ × ν)) (k : κ),
      assocHas (l.foldl (fun m p => assocSet m p.1 p.2) acc) k = true
        ↔ (assocHas acc k = true ∨ k ∈ l.map Prod.fst) := by
  induction l with
  | nil => simp
  | cons p t ih =>
    intro acc k
    simp only [List.foldl_cons, List.map_cons, List.mem_cons]
    rw [ih]
    constructor
    · rintro (h | h)
      · rcases (assocHas_assocSet_iff acc p.1 k p.2).mp h with h' | h'
        · exact Or.inl h'
        · exact Or.inr (Or.inl h')
      · exact Or.inr (Or.inr h)
    · rintro (h | h | h)
      · exact Or.inl ((assocHas_assocSet_iff acc p.1 k p.2).mpr (Or.inl h))
      · exact Or.inl ((assocHas_assocSet_iff acc p.1 k p.2).mpr (Or.inr h))
      · exact Or.inr h

theorem length_eq_dedup_length_of_mem_iff {α : Type} [DecidableEq α]
    (K L : List α) (hK : K.Nodup) (hmem : ∀ x, x ∈ K ↔ x ∈ L) :
    K.length = L.dedup.length := by
  rw [← List.card_toFinset L, ← List.toFinset_card_of_nodup hK]
  congr 1
  ext x
  simp only [List.mem_toFinset]
  exact hmem x

theorem hashFold_all_updated (headers : List String) (S : List Row) :
    ∀ (m : List (String × Row)) (upd nw : List String),
      (∀ r ∈ S, assocHas m (createRowHash r headers) = true) →
      ∃ m' : List (String × Row),
        S.foldl (hashMergeStep headers) (m, upd, nw)
          = (m', upd ++ S.map (fun r => jsTake (createRowHash r headers) 50), nw) ∧
        m'.map Prod.fst = m.map Prod.fst := by
  induction S with
  | nil =>
    intro m upd nw _
    exact ⟨m, by simp, rfl⟩
  | cons r S' ih =>
    intro m upd nw hall
    have hr := hall r (by simp)
    simp only [List.foldl_cons]
    rw [show hashMergeStep headers (m, upd, nw) r
          = (assocSet m (createRowHash r headers) r,
             upd ++ [jsTake (createRowHash r headers) 50], nw) by
        unfold hashMergeStep
        rw [if_pos hr]]
    have hkeys := assocSet_keys_of_has m (createRowHash r headers) r hr
    obtain ⟨m', heq, hkeys'⟩ :=
      ih (assocSet m (createRowHash r headers) r)
        (upd ++ [jsTake (createRowHash r headers) 50]) nw
        (fun r' hr' => by
          rw [assocHas_eq_of_keys_eq _ m hkeys]
          exact hall r' (by simp [hr']))
    refine ⟨m', ?_, hkeys'.trans hkeys⟩
    rw [heq]
    simp

theorem hashFold_self_fixed (headers : List String) (S : List Row) :
    ∀ (m : List (String × Row)) (upd nw : List String),
      (m.map Prod.fst).Nodup →
      (∀ r ∈ S, (createRowHash r headers, r) ∈ m) →
      S.foldl (hashMergeStep headers) (m, upd, nw)
        = (m, upd ++ S.map (fun r => jsTake (createRowHash r headers) 50), nw) := by
  induction S with
  | nil => intro m upd nw _ _; simp
  | cons r S' ih =>
    intro m upd nw hnodup hall
    have hmem := hall r (by simp)
    have hr : assocHas m (createRowHash r headers) = true := by
      rw [assocHas_iff_mem]
      exact List.mem_map.mpr ⟨_, hmem, rfl⟩
    simp only [List.foldl_cons]
    rw [show hashMergeStep headers (m, upd, nw) r
          = (assocSet m (createRowHash r headers) r,
             upd ++ [jsTake (createRowHash r headers) 50], nw) by
        unfold hashMergeStep
        rw [if_pos hr]]
    rw [assocSet_self m _ r hmem hnodup]
    rw [ih m _ nw hnodup (fun r' h => hall r' (by simp [h]))]
    simp

theorem assocOfList_has {κ ν : Type} [DecidableEq κ] (l : List (κ × ν)) (k : κ) :
    assocHas (assocOfList l) k = true ↔ k ∈ l.map Prod.fst := by
  unfold assocOfList
  rw [foldl_assocSet_has]
  simp [assocHas]

theorem mergeStep_null (idKey : String)
    (acc : List (Cell × Row) × List String × List String) (r : Row)
    (h : keyOf idKey r = Cell.null) : mergeStep idKey acc r = acc := by
  unfold mergeStep
  rw [if_pos h]

theorem mergeStep_matched (idKey : String) (m : List (Cell × Row))
    (upd nw : List String) (r : Row) (hnn : ¬(keyOf idKey r = Cell.null))
    (hhas : assocHas m (keyOf idKey r) = true) :
    mergeStep idKey (m, upd, nw) r
      = (assocSet m (keyOf idKey r) r, upd ++ [(keyOf idKey r).toStr], nw) := by
  unfold mergeStep
  rw [if_neg hnn, if_pos hhas]

theorem mergeStep_fresh (idKey : String) (m : List (Cell × Row))
    (upd nw : List String) (r : Row) (hnn : ¬(keyOf idKey r = Cell.null))
    (hhas : assocHas m (keyOf idKey r) = false) :
    mergeStep idKey (m, upd, nw) r
      = (m ++ [(keyOf idKey r, r)], upd, nw ++ [(keyOf idKey r).toStr]) := by
  unfold mergeStep
  rw [if_neg hnn, if_neg (by simp [hhas]), assocSet_of_not_has m _ r hhas]

theorem mergeFold_skip_null (idKey : String) (S : List Row) :
    ∀ acc : List (Cell × Row) × List String × List String,
      S.foldl (mergeStep idKey) acc
        = (S.filter (fun r => keyOf idKey r ≠ Cell.null)).foldl (mergeStep idKey) acc := by
  induction S with
  | nil => intro acc; rfl
  | cons r S' ih =>
    intro acc
    rw [List.foldl_cons, List.filter_cons]
    by_cases h : keyOf idKey r = Cell.null
    · rw [mergeStep_null idKey acc r h, if_neg (by simp [h])]
      exact ih acc
    · rw [if_pos (by simpa using h), List.foldl_cons]
      exact ih _

theorem mergeFold_char (idKey : String) (S : List Row) :
    ∀ (m : List (Cell × Row)) (upd nw : List String),
      ((S.filter (fun r => keyOf idKey r ≠ Cell.null)).map (keyOf idKey)).Nodup →
      S.foldl (mergeStep idKey) (m, upd, nw)
        = (m.map (fun p =>
              ((S.find? (fun r => decide (keyOf idKey r ≠ Cell.null)
                  && decide (keyOf idKey r = p.1))).map
                (fun r' => (p.1, r'))).getD p)
            ++ (S.filter (fun r => decide (keyOf idKey r ≠ Cell.null)
                  && !assocHas m (keyOf idKey r))).map (fun r => (keyOf idKey r, r)),
           upd ++ (S.filter (fun r => decide (keyOf idKey r ≠ Cell.null)
                  && assocHas m (keyOf idKey r))).map
                (fun r => (keyOf idKey r).toStr),
           nw ++ (S.filter (fun r => decide (keyOf idKey r ≠ Cell.null)
                  && !assocHas m (keyOf idKey r))).map
                (fun r => (keyOf idKey r).toStr)) := by
  induction S with
  | nil =>
    intro m upd nw _
    simp
  | cons r S' ih =>
    intro m upd nw hS
    by_cases hnull : keyOf idKey r = Cell.null
    · -- the null-keyed row is skipped entirely
      have hS' : ((S'.filter (fun r' => keyOf idKey r' ≠ Cell.null)).map
          (keyOf idKey)).Nodup := by
        rw [List.filter_cons, if_neg (by simp [hnull])] at hS
        exact hS
      have hfind : ∀ k : Cell,
          (r :: S').find? (fun r' => decide (keyOf idKey r' ≠ Cell.null)
              && decide (keyOf idKey r' = k))
            = S'.find? (fun r' => decide (keyOf idKey r' ≠ Cell.null)
              && decide (keyOf idKey r' = k)) := by
        intro k
        rw [List.find?_cons_of_neg]
        simp [hnull]
      rw [List.foldl_cons, mergeStep_null idKey _ r hnull, ih m upd nw hS']
      refine congrArg₂ Prod.mk ?_ (congrArg₂ Prod.mk ?_ ?_)
      · rw [List.filter_cons, if_neg (by simp [hnull])]
        congr 1
        refine List.map_congr_left (fun p _ => ?_)
        rw [hfind p.1]
      · rw [List.filter_cons, if_neg (by simp [hnull])]
      · rw [List.filter_cons, if_neg (by simp [hnull])]
    · -- non-null key: split off the head of the nodup hypothesis
      have hfc : (r :: S').filter (fun r' => keyOf idKey r' ≠ Cell.null)
          = r :: S'.filter (fun r' => keyOf idKey r' ≠ Cell.null) := by
        rw [List.filter_cons, if_pos (by simpa using hnull)]
      rw [hfc] at hS
      simp only [List.map_cons, List.nodup_cons] at hS
      obtain ⟨hknotin, hS'⟩ := hS
      have hfindnone : S'.find? (fun r' => decide (keyOf idKey r' ≠ Cell.null)
          && decide (keyOf idKey r' = keyOf idKey r)) = none := by
        rw [List.find?_eq_none]
        intro r' hr'
        simp only [Bool.and_eq_true, decide_eq_true_eq, not_and]
        intro hn' hkeq
        apply hknotin
        rw [← hkeq]
        exact List.mem_map.mpr
          ⟨r', List.mem_filter.mpr ⟨hr', by simpa using hn'⟩, rfl⟩
      by_cases hhas : assocHas m (keyOf idKey r) = true
      · -- matched: the stored row at this key is overwritten in place
        have hkeysEq := assocSet_keys_of_has m (keyOf idKey r) r hhas
        have hhasEq : ∀ k', assocHas (assocSet m (keyOf idKey r) r) k'
            = assocHas m k' :=
          fun k' => assocHas_eq_of_keys_eq _ _ hkeysEq k'
        rw [List.foldl_cons, mergeStep_matched idKey m upd nw r hnull hhas,
          ih (assocSet m (keyOf idKey r) r) (upd ++ [(keyOf idKey r).toStr]) nw hS']
        simp only [hhasEq]
        refine congrArg₂ Prod.mk ?_ (congrArg₂ Prod.mk ?_ ?_)
        · rw [List.filter_cons, if_neg (by simp [hhas])]
          congr 1
          rw [assocSet_has_eq m (keyOf idKey r) r hhas, List.map_map]
          refine List.map_congr_left (fun p _ => ?_)
          simp only [Function.comp_apply]
          by_cases hpk : p.1 = keyOf idKey r
          · have hfr : (r :: S').find? (fun r' => decide (keyOf idKey r' ≠ Cell.null)
                && decide (keyOf idKey r' = p.1)) = some r :=
              List.find?_cons_of_pos _ (by simp [hnull, hpk])
            rw [if_pos hpk, hfr]
            dsimp only
            rw [hfindnone]
            simp [hpk]
          · have hfr : (r :: S').find? (fun r' => decide (keyOf idKey r' ≠ Cell.null)
                && decide (keyOf idKey r' = p.1))
                = S'.find? (fun r' => decide (keyOf idKey r' ≠ Cell.null)
                  && decide (keyOf idKey r' = p.1)) := by
              rw [List.find?_cons_of_neg]
              simp only [Bool.and_eq_true, decide_eq_true_eq, not_and]
              exact fun _ hc => hpk hc.symm
            rw [if_neg hpk, hfr]
        · rw [List.filter_cons, if_pos (by simp [hnull, hhas])]
          simp [List.append_assoc]
        · rw [List.filter_cons, if_neg (by simp [hhas])]
      · -- fresh: the row is appended under its key and reported as new
        have hhasF : assocHas m (keyOf idKey r) = false := by simpa using hhas
        have hhasEq : ∀ k', assocHas (m ++ [(keyOf idKey r, r)]) k'
            = (assocHas m k' || decide (keyOf idKey r = k')) := by
          intro k'
          simp [assocHas, List.any_append]
        have hfiltF : S'.filter (fun r' => decide (keyOf idKey r' ≠ Cell.null)
              && !assocHas (m ++ [(keyOf idKey r, r)]) (keyOf idKey r'))
            = S'.filter (fun r' => decide (keyOf idKey r' ≠ Cell.null)
              && !assocHas m (keyOf idKey r')) := by
          refine List.filter_congr (fun r' hr' => ?_)
          by_cases hn' : keyOf idKey r' = Cell.null
          · simp [hn']
          · have hne : ¬(keyOf idKey r = keyOf idKey r') := by
              intro hcontra
              apply hknotin
              rw [hcontra]
              exact List.mem_map.mpr
                ⟨r', List.mem_filter.mpr ⟨hr', by simpa using hn'⟩, rfl⟩
            rw [hhasEq]
            simp [hne]
        have hfiltM : S'.filter (fun r' => decide (keyOf idKey r' ≠ Cell.null)
              && assocHas (m ++ [(keyOf idKey r, r)]) (keyOf idKey r'))
            = S'.filter (fun r' => decide (keyOf idKey r' ≠ Cell.null)
              && assocHas m (keyOf idKey r')) := by
          refine List.filter_congr (fun r' hr' => ?_)
          by_cases hn' : keyOf idKey r' = Cell.null
          · simp [hn']
          · have hne : ¬(keyOf idKey r = keyOf idKey r') := by
              intro hcontra
              apply hknotin
              rw [hcontra]
              exact List.mem_map.mpr
                ⟨r', List.mem_filter.mpr ⟨hr', by simpa using hn'⟩, rfl⟩
            rw [hhasEq]
            simp [hne]
        have hknotm : ∀ p ∈ m, ¬(p.1 = keyOf idKey r) := by
          intro p hp hc
          have hmem : assocHas m (keyOf idKey r) = true :=
            (assocHas_iff_mem m _).mpr (List.mem_map.mpr ⟨p, hp, hc⟩)
          rw [hmem] at hhasF
          simp at hhasF
        rw [List.foldl_cons, mergeStep_fresh idKey m upd nw r hnull hhasF,
          ih (m ++ [(keyOf idKey r, r)]) upd (nw ++ [(keyOf idKey r).toStr]) hS']
        rw [hfiltF, hfiltM]
        refine congrArg₂ Prod.mk ?_ (congrArg₂ Prod.mk ?_ ?_)
        · rw [List.filter_cons, if_pos (by simp [hnull, hhasF])]
          rw [List.map_append]
          have hmapm : m.map (fun p =>
              ((S'.find? (fun r' => decide (keyOf idKey r' ≠ Cell.null)
                  && decide (keyOf idKey r' = p.1))).map
                (fun r' => (p.1, r'))).getD p)
              = m.map (fun p =>
              (((r :: S').find? (fun r' => decide (keyOf idKey r' ≠ Cell.null)
                  && decide (keyOf idKey r' = p.1))).map
                (fun r' => (p.1, r'))).getD p) := by
            refine List.map_congr_left (fun p hp => ?_)
            have hfr : (r :: S').find? (fun r' => decide (keyOf idKey r' ≠ Cell.null)
                && decide (keyOf idKey r' = p.1))
                = S'.find? (fun r' => decide (keyOf idKey r' ≠ Cell.null)
                  && decide (keyOf idKey r' = p.1)) := by
              rw [List.find?_cons_of_neg]
              simp only [Bool.and_eq_true, decide_eq_true_eq, not_and]
              exact fun _ hc => hknotm p hp hc.symm
            rw [hfr]
          rw [hmapm]
          have hsingle : ([(keyOf idKey r, r)] : List (Cell × Row)).map (fun p =>
              ((S'.find? (fun r' => decide (keyOf idKey r' ≠ Cell.null)
                  && decide (keyOf idKey r' = p.1))).map
                (fun r' => (p.1, r'))).getD p)
              = [(keyOf idKey r, r)] := by
            rw [List.map_singleton]
            dsimp only
            rw [hfindnone]
            rfl
          rw [hsingle, List.append_assoc, List.map_cons]
          rfl
        · rw [List.filter_cons, if_neg (by simp [hhasF])]
        · rw [List.filter_cons, if_pos (by simp [hnull, hhasF])]
          simp [List.append_assoc]

theorem bool_eq_decide {p : Prop} [Decidable p] {b : Bool} (h : b = true ↔ p) :
    b = decide p := by
  by_cases hp : p
  · rw [h.mpr hp, decide_eq_true hp]
  · cases hb : b
    · rw [decide_eq_false hp]
    · exact absurd (h.mp hb) hp

instance claimPassesDec (filters : List (String × String)) (row : Row) :
    Decidable (claimPasses filters row) := by
  unfold claimPasses
  infer_instance

instance claimPassesAmendedDec (filters : List (String × String)) (row : Row) :
    Decidable (claimPassesAmended filters row) := by
  unfold claimPassesAmended
  infer_instance

theorem passes_cell_iff (terms : List String) (lowstr : String) :
    ((if terms.length = 0 then true
      else terms.any fun term => strContains lowstr term) = true)
    ↔ (terms = [] ∨ ∃ t ∈ terms, strContains lowstr t = true) := by
  by_cases hlen : terms.length = 0
  · simp [List.length_eq_zero.mp hlen]
  · have hne : terms ≠ [] := fun hnil => hlen (by rw [hnil]; rfl)
    rw [if_neg hlen]
    simp only [List.any_eq_true]
    constructor
    · exact Or.inr
    · rintro (hnil | hex)
      · exact absurd hnil hne
      · exact hex

theorem rowPassesFilters_iff (filters : List (String × String)) (row : Row) :
    rowPassesFilters filters row = true ↔ claimPassesAmended filters row := by
  unfold rowPassesFilters claimPassesAmended
  rw [List.all_eq_true]
  constructor
  · intro hall p hp hne
    have hmem : p ∈ activeFilters filters :=
      List.mem_filter.mpr ⟨hp, by simpa using hne⟩
    have hthis := hall p hmem
    rcases hc : rowGet row p.1 with _ | x | s | bb <;> rw [hc] at hthis
    · simp at hthis
    · exact ⟨by simp, (passes_cell_iff _ _).mp hthis⟩
    · exact ⟨by simp, (passes_cell_iff _ _).mp hthis⟩
    · exact ⟨by simp, (passes_cell_iff _ _).mp hthis⟩
  · intro hP p hmem
    obtain ⟨hp, hne⟩ := List.mem_filter.mp hmem
    obtain ⟨hnull, hor⟩ := hP p hp (by simpa using hne)
    show (match rowGet row p.1 with
          | Cell.null => false
          | cv =>
            let cellValueStr := jsToLower cv.toStr
            let searchTerms := parseTerms p.2
            if searchTerms.length = 0 then true
            else searchTerms.any fun term => strContains cellValueStr term) = true
    rcases hc : rowGet row p.1 with _ | x | s | bb
    · exact absurd hc hnull
    · rw [hc] at hor
      exact (passes_cell_iff _ _).mpr hor
    · rw [hc] at hor
      exact (passes_cell_iff _ _).mpr hor
    · rw [hc] at hor
      exact (passes_cell_iff _ _).mpr hor

theorem rowPassesFilters_eq_decide (filters : List (String × String)) (row : Row) :
    rowPassesFilters filters row = decide (claimPassesAmended filters row) :=
  bool_eq_decide (rowPassesFilters_iff filters row)

/-! ### Claim theorems -/

/-- C1: the first-column-key merge (i) skips rows with a null/absent key
entirely — merging is unchanged when they are dropped from the incoming
rows; (ii) with identical headers and duplicate-free keys, classifies each
incoming row as updated (key present among the existing keys, overwriting
the stored row in place) or new (fresh key, appended in incoming order),
preserving the existing rows' relative order; and (iii) reproduces the §8
scenario: existing `[[1,"Ana"],[2,"Bo"]]` merged with incoming
`[[2,"Bob"],[3,"Cy"]]` over `["ID","Name"]` gives merged rows
`[[1,"Ana"],[2,"Bob"],[3,"Cy"]]` and report `{updated:["2"], new:["3"]}`. -/
theorem claim_C1_first_col_merge :
    (∀ (existing : SheetData) (hdrs : List String) (I : List Row),
        mergeFirstColKey existing ⟨hdrs, I⟩
          = mergeFirstColKey existing
              ⟨hdrs, I.filter
                (fun r => keyOf (existing.headers.headD "") r ≠ Cell.null)⟩) ∧
    (∀ (existing incoming : SheetData) (idKey : String),
        idKey = existing.headers.headD "" →
        existing.headers = incoming.headers →
        (existing.rows.map (keyOf idKey)).Nodup →
        ((incoming.rows.filter (fun r => keyOf idKey r ≠ Cell.null)).map
          (keyOf idKey)).Nodup →
        mergeFirstColKey existing incoming
          = .ok ({ headers := existing.headers,
                   rows := existing.rows.map (fun e =>
                       (incoming.rows.find? (fun r =>
                           decide (keyOf idKey r ≠ Cell.null)
                             && decide (keyOf idKey r = keyOf idKey e))).getD e)
                     ++ incoming.rows.filter (fun r =>
                         decide (keyOf idKey r ≠ Cell.null)
                           && !decide (keyOf idKey r
                                ∈ existing.rows.map (keyOf idKey))) },
                 { updated := (incoming.rows.filter (fun r =>
                       decide (keyOf idKey r ≠ Cell.null)
                         && decide (keyOf idKey r
                              ∈ existing.rows.map (keyOf idKey)))).map
                     (fun r => (keyOf idKey r).toStr),
                   new := (incoming.rows.filter (fun r =>
                       decide (keyOf idKey r ≠ Cell.null)
                         && !decide (keyOf idKey r
                              ∈ existing.rows.map (keyOf idKey)))).map
                     (fun r => (keyOf idKey r).toStr) })) ∧
    mergeFirstColKey
        ⟨["ID", "Name"], [[("ID", Cell.num 1), ("Name", Cell.str "Ana")],
          [("ID", Cell.num 2), ("Name", Cell.str "Bo")]]⟩
        ⟨["ID", "Name"], [[("ID", Cell.num 2), ("Name", Cell.str "Bob")],
          [("ID", Cell.num 3), ("Name", Cell.str "Cy")]]⟩
      = .ok (⟨["ID", "Name"], [[("ID", Cell.num 1), ("Name", Cell.str "Ana")],
              [("ID", Cell.num 2), ("Name", Cell.str "Bob")],
              [("ID", Cell.num 3), ("Name", Cell.str "Cy")]]⟩,
             { updated := ["2"], new := ["3"] }) := by
  refine ⟨fun existing hdrs I => ?_, ?_, by decide⟩
  · unfold mergeFirstColKey
    dsimp only
    by_cases hm : headersMatch existing.headers hdrs = true
    · rw [hm]
      simp only [Bool.not_true, Bool.false_eq_true, if_false]
      rw [mergeFold_skip_null (existing.headers.headD "") I]
    · rw [show headersMatch existing.headers hdrs = false by simpa using hm]
      rfl
  · intro existing incoming idKey hid hhdr hE hI
    subst hid
    have hm : headersMatch existing.headers incoming.headers = true :=
      (headersMatch_true_iff _ _).mpr hhdr
    have hpairs_nodup : ((existing.rows.map
        (fun row => (keyOf (existing.headers.headD "") row, row))).map
          Prod.fst).Nodup := by
      rw [List.map_map]
      exact hE
    have hhp : ∀ k, assocHas (existing.rows.map
        (fun row => (keyOf (existing.headers.headD "") row, row))) k
        = decide (k ∈ existing.rows.map (keyOf (existing.headers.headD ""))) := by
      intro k
      apply bool_eq_decide
      rw [assocHas_iff_mem, List.map_map]
      exact Iff.rfl
    have hsnd : ∀ (o : Option Row) (k : Cell) (e : Row),
        ((o.map (fun r' => (k, r'))).getD (k, e)).2 = o.getD e := by
      intro o k e
      cases o <;> rfl
    unfold mergeFirstColKey
    rw [hm]
    simp only [Bool.not_true, Bool.false_eq_true, if_false]
    rw [assocOfList_eq_self _ hpairs_nodup,
      mergeFold_char (existing.headers.headD "") incoming.rows _ [] [] hI]
    dsimp only
    congr 1
    refine congrArg₂ Prod.mk ?_ ?_
    · congr 1
      rw [List.map_append]
      refine congrArg₂ (· ++ ·) ?_ ?_
      · rw [List.map_map, List.map_map]
        refine List.map_congr_left (fun e _ => ?_)
        simp only [Function.comp_apply]
        exact hsnd _ _ _
      · simp only [hhp]
        rw [List.map_map]
        rw [show ((fun p : Cell × Row => p.2)
            ∘ fun r => (keyOf (existing.headers.headD "") r, r)) = (id : Row → Row)
            from funext (fun _ => rfl)]
        exact List.map_id _
    · simp only [hhp, List.nil_append]

theorem claim_C1_witness :
    mergeFirstColKey
        ⟨["ID", "Name"], [[("ID", Cell.num 1), ("Name", Cell.str "Ana")],
          [("ID", Cell.num 2), ("Name", Cell.str "Bo")]]⟩
        ⟨["ID", "Name"], [[("ID", Cell.num 2), ("Name", Cell.str "Bob")],
          [("ID", Cell.num 3), ("Name", Cell.str "Cy")]]⟩
      = .ok (⟨["ID", "Name"], [[("ID", Cell.num 1), ("Name", Cell.str "Ana")],
              [("ID", Cell.num 2), ("Name", Cell.str "Bob")],
              [("ID", Cell.num 3), ("Name", Cell.str "Cy")]]⟩,
             { updated := ["2"], new := ["3"] }) := by
  have h := claim_C1_first_col_merge.2.1
    ⟨["ID", "Name"], [[("ID", Cell.num 1), ("Name", Cell.str "Ana")],
      [("ID", Cell.num 2), ("Name", Cell.str "Bo")]]⟩
    ⟨["ID", "Name"], [[("ID", Cell.num 2), ("Name", Cell.str "Bob")],
      [("ID", Cell.num 3), ("Name", Cell.str "Cy")]]⟩
    "ID" (by decide) (by decide) (by decide) (by decide)
  rw [h]
  decide

/-- C2: for every pair of Tables whose header sequences differ (in length,
in any name, or in order), both merge revisions fail with `SchemaMismatch`
surfacing both header lists, and the state-level merge effect leaves the
stored state completely unchanged and produces no report. -/
theorem claim_C2_schema_mismatch (existing incoming : SheetData)
    (h : existing.headers ≠ incoming.headers) :
    mergeFirstColKey existing incoming =
      .error (.schemaMismatch existing.headers incoming.headers) ∧
    mergeContentHash existing incoming =
      .error (.schemaMismatch existing.headers incoming.headers) ∧
    ∀ (store : SheetStore) (key : String),
      (store.find? (fun p => p.1 = key)).map (fun p => p.2) = some existing →
      applyMergeEffect store key incoming = (store, none) := by
  have hm : headersMatch existing.headers incoming.headers = false := by
    rw [← Bool.not_eq_true]
    intro hc
    exact h ((headersMatch_true_iff _ _).mp hc)
  have h1 : mergeFirstColKey existing incoming =
      .error (.schemaMismatch existing.headers incoming.headers) := by
    unfold mergeFirstColKey
    rw [hm]
    rfl
  have h2 : mergeContentHash existing incoming =
      .error (.schemaMismatch existing.headers incoming.headers) := by
    unfold mergeContentHash
    rw [hm]
    rfl
  refine ⟨h1, h2, fun store key hfind => ?_⟩
  unfold applyMergeEffect
  rw [hfind]
  simp only [h1]

theorem claim_C2_witness :
    mergeFirstColKey ⟨["A", "B"], []⟩ ⟨["A", "C"], []⟩ =
      .error (.schemaMismatch ["A", "B"] ["A", "C"]) :=
  (claim_C2_schema_mismatch ⟨["A", "B"], []⟩ ⟨["A", "C"], []⟩ (by decide)).1

/-- C7: once a header row is accepted, the span is the longest prefix of
non-blank cells (stringified) — truncating at the first null/empty-after-trim
cell even when non-empty cells follow, as in `["A","B",null,"C"] ↦ ["A","B"]` —
and an accepted header row with an empty span makes the pipeline fail with
`NoValidColumns`. -/
theorem claim_C7_header_span :
    (∀ hs : List Cell,
        headerSpan hs = (hs.takeWhile (fun c => !cellBlank c)).map Cell.toStr) ∧
    headerSpan [Cell.str "A", Cell.str "B", Cell.null, Cell.str "C"] = ["A", "B"] ∧
    (∀ (allData : List (List Cell)) (idx : Nat) (ph : List Cell),
        detectHeaderRow allData = .ok (idx, ph) →
        headerSpan ph = [] →
        detectHeader allData = .error .noValidColumns) := by
  refine ⟨fun hs => ?_, by decide, fun allData idx ph hdet hspan => ?_⟩
  · rw [headerSpan, take_lastValidIndex_eq_takeWhile]
  · unfold detectHeader
    rw [hdet]
    simp only [hspan, List.length_nil, if_pos]

theorem claim_C7_witness :
    detectHeader [[Cell.null], [Cell.str " ", Cell.str "A", Cell.str "B", Cell.str "C"]]
      = .error .noValidColumns :=
  claim_C7_header_span.2.2
    [[Cell.null], [Cell.str " ", Cell.str "A", Cell.str "B", Cell.str "C"]]
    1 [Cell.str " ", Cell.str "A", Cell.str "B", Cell.str "C"] (by rfl) (by rfl)

/-- C8: the viewport windower computes `startIndex = max(0, ⌊s/h⌋ − o)`,
`visibleCount = ⌈c/h⌉`, `endIndex = min(totalRows−1, startIndex+visibleCount+2o)`,
`leadingPad = startIndex·h`, `trailingPad = (totalRows−1−endIndex)·h` clamped
at 0, materializes exactly the row indices in `[startIndex, endIndex]`, and
at `h=37, o=3, s=0, c=370` yields `startIndex=0`, `visibleCount=10`,
`endIndex = min(total−1, 16)`. -/
theorem claim_C8_viewport (h o s c total : Int)
    (hh : 0 < h) (ho : 0 ≤ o) (hs : 0 ≤ s) (hc : 0 ≤ c) (htotal : 0 ≤ total) :
    vwStartIndex h o s = max 0 (⌊(s : ℚ) / (h : ℚ)⌋ - o) ∧
    vwVisibleCount h c = ⌈(c : ℚ) / (h : ℚ)⌉ ∧
    vwEndIndex h o s c total
      = min (total - 1) (vwStartIndex h o s + vwVisibleCount h c + 2 * o) ∧
    vwPaddingTop h o s = vwStartIndex h o s * h ∧
    vwPaddingBottom h o s c total
      = max 0 ((total - 1 - vwEndIndex h o s c total) * h) ∧
    (∀ rows : List Row, (rows.length : Int) = total →
      vwVisibleRows rows h o s c
        = (rows.drop (vwStartIndex h o s).toNat).take
            ((vwEndIndex h o s c total - vwStartIndex h o s + 1).toNat)) ∧
    vwStartIndex 37 3 0 = 0 ∧ vwVisibleCount 37 370 = 10 ∧
    vwEndIndex 37 3 0 370 total = min (total - 1) 16 := by
  have hstart0 : 0 ≤ vwStartIndex h o s := le_max_left _ _
  have hvc0 : 0 ≤ vwVisibleCount h c := by
    unfold vwVisibleCount
    exact Int.ediv_nonneg (by omega) (by omega)
  have hend : vwEndIndex h o s c total ≤ total - 1 := min_le_left _ _
  have e1 : vwStartIndex 37 3 0 = 0 := by decide
  have e2 : vwVisibleCount 37 370 = 10 := by decide
  refine ⟨?_, ?_, ?_, rfl, ?_, ?_, e1, e2, ?_⟩
  · unfold vwStartIndex
    rw [intDiv_eq_floor s h hh]
  · exact intCeilDiv_eq_ceil c h hh
  · unfold vwEndIndex
    rw [show o * 2 = 2 * o by ring]
  · unfold vwPaddingBottom
    rw [max_eq_right (mul_nonneg (by omega) (le_of_lt hh))]
    ring
  · intro rows hrows
    simp only [vwVisibleRows, hrows]
    congr 1
    omega
  · unfold vwEndIndex
    rw [e1, e2]
    norm_num

theorem claim_C8_witness :
    vwStartIndex 37 3 0 = max 0 (⌊(0 : ℚ) / (37 : ℚ)⌋ - 3) ∧
    vwVisibleCount 37 370 = ⌈(370 : ℚ) / (37 : ℚ)⌉ :=
  ⟨(claim_C8_viewport 37 3 0 370 20 (by norm_num) (by norm_num) (by norm_num)
      (by norm_num) (by norm_num)).1,
   (claim_C8_viewport 37 3 0 370 20 (by norm_num) (by norm_num) (by norm_num)
      (by norm_num) (by norm_num)).2.1⟩

/-- C10: for every totalRows ≥ 1 and geometry with startIndex ≤ totalRows − 1,
the leading pad plus the materialized span `(endIndex − startIndex + 1)·ROW_HEIGHT`
plus the trailing pad equals `totalRows · ROW_HEIGHT`. -/
theorem claim_C10_pad_invariant (s c total : Int) (hs : 0 ≤ s) (hc : 0 ≤ c)
    (htotal : 1 ≤ total)
    (hstart : vwStartIndex ROW_HEIGHT OVERSCAN_COUNT s ≤ total - 1) :
    vwPaddingTop ROW_HEIGHT OVERSCAN_COUNT s
      + (vwEndIndex ROW_HEIGHT OVERSCAN_COUNT s c total
          - vwStartIndex ROW_HEIGHT OVERSCAN_COUNT s + 1) * ROW_HEIGHT
      + vwPaddingBottom ROW_HEIGHT OVERSCAN_COUNT s c total
      = total * ROW_HEIGHT := by
  unfold vwPaddingTop vwPaddingBottom
  ring

/-- C3 counterexample: self-merging a table with two identical rows yields a
merged table with 1 row, not 2 — `Array.from(map.values())` collapses rows
sharing a content hash, so the merged row count is not the original's. -/
theorem claim_C3_counterexample :
    mergeContentHash ⟨["a"], [[("a", Cell.str "1")], [("a", Cell.str "1")]]⟩
        ⟨["a"], [[("a", Cell.str "1")], [("a", Cell.str "1")]]⟩
      = .ok (⟨["a"], [[("a", Cell.str "1")]]⟩,
             { updated := ["1", "1"], new := [] }) ∧
    ([[("a", Cell.str "1")], [("a", Cell.str "1")]] : List Row).length = 2 := by
  exact ⟨by decide, rfl⟩

/-- C3 amended: under the content-hash policy, merging any Table into itself
produces zero rows classified new, classifies every row as updated exactly
once (one report entry per incoming row, the hash truncated to 50
characters), and yields a merged table whose row count equals the number of
distinct row content-hashes — which equals the original row count exactly
when all row hashes are distinct, in which case the merged rows are the
original rows unchanged. -/
theorem claim_C3_content_hash_self_merge (T : SheetData) :
    ∃ mergedRows : List Row,
      mergeContentHash T T
        = .ok ({ headers := T.headers, rows := mergedRows },
               { updated := T.rows.map
                   (fun r => jsTake (createRowHash r T.headers) 50),
                 new := [] }) ∧
      mergedRows.length
        = (T.rows.map (fun r => createRowHash r T.headers)).dedup.length ∧
      ((T.rows.map (fun r => createRowHash r T.headers)).Nodup →
        mergedRows = T.rows) := by
  have hmatch : headersMatch T.headers T.headers = true :=
    (headersMatch_true_iff _ _).mpr rfl
  have hpairs_keys :
      (T.rows.map (fun row => (createRowHash row T.headers, row))).map Prod.fst
        = T.rows.map (fun r => createRowHash r T.headers) := by
    rw [List.map_map]
    rfl
  have hinit_has : ∀ r ∈ T.rows,
      assocHas (assocOfList
        (T.rows.map (fun row => (createRowHash row T.headers, row))))
        (createRowHash r T.headers) = true := by
    intro r hr
    rw [assocOfList_has]
    rw [hpairs_keys]
    exact List.mem_map.mpr ⟨r, hr, rfl⟩
  obtain ⟨m', heq, hkeys⟩ := hashFold_all_updated T.headers T.rows
    (assocOfList (T.rows.map (fun row => (createRowHash row T.headers, row))))
    [] [] hinit_has
  have hinit_nodup :
      ((assocOfList
        (T.rows.map (fun row => (createRowHash row T.headers, row)))).map
          Prod.fst).Nodup := by
    exact foldl_assocSet_keys_nodup _ [] (by simp)
  refine ⟨m'.map Prod.snd, ?_, ?_, ?_⟩
  · unfold mergeContentHash
    rw [hmatch]
    simp only [Bool.not_true, Bool.false_eq_true, if_false]
    rw [heq]
    simp
  · rw [List.length_map]
    have hlen : m'.length = (m'.map Prod.fst).length := (List.length_map _ _).symm
    rw [hlen, hkeys]
    refine length_eq_dedup_length_of_mem_iff _ _ hinit_nodup (fun x => ?_)
    rw [← assocHas_iff_mem, assocOfList_has, hpairs_keys]
  · intro hnd
    have hpn : ((T.rows.map
        (fun row => (createRowHash row T.headers, row))).map Prod.fst).Nodup := by
      rw [hpairs_keys]
      exact hnd
    have hself := assocOfList_eq_self
      (T.rows.map (fun row => (createRowHash row T.headers, row))) hpn
    have hfix := hashFold_self_fixed T.headers T.rows
      (T.rows.map (fun row => (createRowHash row T.headers, row))) [] [] hpn
      (fun r hr => List.mem_map.mpr ⟨r, hr, rfl⟩)
    rw [hself] at heq
    rw [heq] at hfix
    have hm' : m' = T.rows.map (fun row => (createRowHash row T.headers, row)) :=
      congrArg Prod.fst hfix
    rw [hm', List.map_map]
    rw [show (Prod.snd ∘ fun row => (createRowHash row T.headers, row))
          = (id : Row → Row) from funext (fun _ => rfl)]
    exact List.map_id T.rows

theorem claim_C3_witness :
    ∃ mergedRows : List Row,
      mergeContentHash ⟨["a"], [[("a", Cell.str "1")], [("a", Cell.str "2")]]⟩
          ⟨["a"], [[("a", Cell.str "1")], [("a", Cell.str "2")]]⟩
        = .ok ({ headers := ["a"], rows := mergedRows },
               { updated := ([[("a", Cell.str "1")], [("a", Cell.str "2")]] :
                     List Row).map
                   (fun r => jsTake (createRowHash r ["a"]) 50),
                 new := [] }) ∧
      mergedRows.length
        = (([[("a", Cell.str "1")], [("a", Cell.str "2")]] : List Row).map
            (fun r => createRowHash r ["a"])).dedup.length ∧
      ((([[("a", Cell.str "1")], [("a", Cell.str "2")]] : List Row).map
          (fun r => createRowHash r ["a"])).Nodup →
        mergedRows = [[("a", Cell.str "1")], [("a", Cell.str "2")]]) :=
  claim_C3_content_hash_self_merge
    ⟨["a"], [[("a", Cell.str "1")], [("a", Cell.str "2")]]⟩

/-- C4 counterexample: a filter string that is non-empty but whose terms all
trim away (here `" "`) yields an empty term list; the code then passes every
row with a non-null value in that column, while the claim's characterization
("contains at least one of the column's terms") admits no row at all. -/
theorem claim_C4_counterexample :
    applyFilters [("k", " ")] [[("k", Cell.str "x")]] = [[("k", Cell.str "x")]] ∧
    ¬ claimPasses [("k", " ")] [("k", Cell.str "x")] := by
  constructor
  · decide
  · decide

/-- C4 amended: the filter stage keeps exactly the rows that, for every
column with a non-empty filter string, have a non-null value whose
lowercased string representation contains at least one of the column's
terms — except that a filtered column whose term list is empty after
discarding empty terms is passed by every row with a non-null value in it
(OR within a column, AND across columns; null values never pass a filtered
column; no filters ⇒ all rows pass), as witnessed by the spec's OR/AND
examples. -/
theorem claim_C4_filter_stage :
    (∀ (filters : List (String × String)) (rows : List Row),
        applyFilters filters rows
          = rows.filter (fun row => decide (claimPassesAmended filters row))) ∧
    applyFilters [("dept", "bio;math")] [[("dept", Cell.str "Math A")]]
      = [[("dept", Cell.str "Math A")]] ∧
    applyFilters [("dept", "math"), ("year", "2024")]
        [[("dept", Cell.str "Math"), ("year", Cell.str "2023")]]
      = [] := by
  refine ⟨fun filters rows => ?_, by decide, by decide⟩
  unfold applyFilters
  by_cases hact : 0 < (activeFilters filters).length
  · rw [if_pos hact]
    exact List.filter_congr
      (fun row _ => rowPassesFilters_eq_decide filters row)
  · rw [if_neg hact]
    symm
    rw [List.filter_eq_self]
    intro row hrow
    rw [decide_eq_true_eq]
    intro p hp hne
    exfalso
    have hmem : p ∈ activeFilters filters :=
      List.mem_filter.mpr ⟨hp, by simpa using hne⟩
    have : 0 < (activeFilters filters).length :=
      List.length_pos.mpr (fun hnil => by rw [hnil] at hmem; exact absurd hmem (by simp))
    exact hact this

theorem compare_other_branch (d : SortDirection) (u v : String) :
    (if u < v then (if d = SortDirection.ascending then (-1 : Int) else 1)
     else if u > v then (if d = SortDirection.ascending then (1 : Int) else -1)
     else 0)
      = (if d = SortDirection.ascending then specLexCmp u v else -specLexCmp u v) := by
  unfold specLexCmp
  by_cases hdir : d = SortDirection.ascending
  · simp [hdir, gt_iff_lt]
  · simp only [if_neg hdir]
    rcases lt_trichotomy u v with h | h | h
    · simp [h]
    · subst h
      simp
    · simp [h, lt_asymm h, gt_iff_lt]

theorem compareRows_other (cfg : SortConfig) (a b : Row) (ca cb : Cell)
    (hca : rowGet a cfg.key = ca) (hcb : rowGet b cfg.key = cb)
    (hna : ca ≠ Cell.null) (hnb : cb ≠ Cell.null)
    (hnn : ¬(ca.isNum = true ∧ cb.isNum = true)) :
    compareRows cfg a b =
      (if cfg.direction = SortDirection.ascending
       then specLexCmp (jsToLower ca.toStr) (jsToLower cb.toStr)
       else -specLexCmp (jsToLower ca.toStr) (jsToLower cb.toStr)) := by
  rcases ca with _ | x | s | bx
  · exact absurd rfl hna
  · rcases cb with _ | y | s2 | by2
    · exact absurd rfl hnb
    · exact absurd ⟨rfl, rfl⟩ hnn
    · unfold compareRows
      rw [hca, hcb, if_neg hna, if_neg hnb]
      exact compare_other_branch cfg.direction _ _
    · unfold compareRows
      rw [hca, hcb, if_neg hna, if_neg hnb]
      exact compare_other_branch cfg.direction _ _
  · rcases cb with _ | y | s2 | by2
    · exact absurd rfl hnb
    · unfold compareRows
      rw [hca, hcb, if_neg hna, if_neg hnb]
      exact compare_other_branch cfg.direction _ _
    · unfold compareRows
      rw [hca, hcb, if_neg hna, if_neg hnb]
      exact compare_other_branch cfg.direction _ _
    · unfold compareRows
      rw [hca, hcb, if_neg hna, if_neg hnb]
      exact compare_other_branch cfg.direction _ _
  · rcases cb with _ | y | s2 | by2
    · exact absurd rfl hnb
    · unfold compareRows
      rw [hca, hcb, if_neg hna, if_neg hnb]
      exact compare_other_branch cfg.direction _ _
    · unfold compareRows
      rw [hca, hcb, if_neg hna, if_neg hnb]
      exact compare_other_branch cfg.direction _ _
    · unfold compareRows
      rw [hca, hcb, if_neg hna, if_neg hnb]
      exact compare_other_branch cfg.direction _ _

/-- C5: the sort comparator puts a null-keyed row after any non-null row in
both directions; numeric pairs compare by subtraction with the sign flipped
for descending; any other non-null pair compares by case-insensitive
lexicographic comparison of the stringified values with the sign flipped for
descending; `[{v:5},{v:null},{v:1}]` sorted ascending yields
`[{v:1},{v:5},{v:null}]`; no sort config returns the filtered order. -/
theorem claim_C5_sort_stage :
    (∀ (cfg : SortConfig) (a b : Row),
        rowGet a cfg.key = Cell.null → rowGet b cfg.key ≠ Cell.null →
        compareRows cfg a b = 1 ∧ compareRows cfg b a = -1) ∧
    (∀ (cfg : SortConfig) (a b : Row) (x y : Int),
        rowGet a cfg.key = Cell.num x → rowGet b cfg.key = Cell.num y →
        compareRows cfg a b =
          (if cfg.direction = SortDirection.ascending then x - y else -(x - y))) ∧
    (∀ (cfg : SortConfig) (a b : Row),
        rowGet a cfg.key ≠ Cell.null → rowGet b cfg.key ≠ Cell.null →
        ¬((rowGet a cfg.key).isNum = true ∧ (rowGet b cfg.key).isNum = true) →
        compareRows cfg a b =
          (if cfg.direction = SortDirection.ascending
           then specLexCmp (jsToLower (rowGet a cfg.key).toStr)
                  (jsToLower (rowGet b cfg.key).toStr)
           else -specLexCmp (jsToLower (rowGet a cfg.key).toStr)
                  (jsToLower (rowGet b cfg.key).toStr))) ∧
    processedRows [[("v", Cell.num 5)], [("v", Cell.null)], [("v", Cell.num 1)]] []
        (some ⟨"v", SortDirection.ascending⟩)
      = [[("v", Cell.num 1)], [("v", Cell.num 5)], [("v", Cell.null)]] ∧
    (∀ (rows : List Row) (filters : List (String × String)),
        processedRows rows filters none = applyFilters filters rows) := by
  refine ⟨fun cfg a b ha hb => ?_, fun cfg a b x y ha hb => ?_,
    fun cfg a b ha hb hnum => ?_, by decide, fun rows filters => rfl⟩
  · constructor
    · unfold compareRows
      rw [ha]
      simp
    · unfold compareRows
      rw [if_neg hb, ha]
      simp
  · unfold compareRows
    rw [ha, hb]
    rw [if_neg (by simp : ¬(Cell.num x = Cell.null)),
      if_neg (by simp : ¬(Cell.num y = Cell.null))]
    by_cases hdir : cfg.direction = SortDirection.ascending <;>
      simp [hdir]
  · exact compareRows_other cfg a b _ _ rfl rfl ha hb hnum

theorem claim_C5_witness :
    compareRows ⟨"v", SortDirection.descending⟩ [("v", Cell.null)] [("v", Cell.num 1)]
        = 1 ∧
    compareRows ⟨"v", SortDirection.descending⟩ [("v", Cell.num 1)] [("v", Cell.null)]
        = -1 :=
  claim_C5_sort_stage.1 ⟨"v", SortDirection.descending⟩
    [("v", Cell.null)] [("v", Cell.num 1)] (by decide) (by decide)

/-! ### C6 -/

/-- C6: for RawMatrix inputs, fewer than 2 rows fails with `MalformedInput`;
row index 1 is accepted whenever it satisfies the ≥3-string-cells rule
(deterministically); otherwise index 2 under the same rule; otherwise the
first of rows 0..4 (bounded by the matrix length) with ≥2 non-empty cells;
and `HeaderNotFound` when no row matches. -/
theorem claim_C6_header_detector :
    (∀ allData : List (List Cell), allData.length < 2 →
        detectHeaderRow allData = .error .malformedInput) ∧
    (∀ allData : List (List Cell), 2 ≤ allData.length →
        isStringHeaderRow (allData.getD 1 []) = true →
        detectHeaderRow allData = .ok (1, allData.getD 1 [])) ∧
    (∀ allData : List (List Cell), 2 ≤ allData.length →
        isStringHeaderRow (allData.getD 1 []) = false →
        2 < allData.length →
        isStringHeaderRow (allData.getD 2 []) = true →
        detectHeaderRow allData = .ok (2, allData.getD 2 [])) ∧
    (∀ (allData : List (List Cell)) (i : Nat), 2 ≤ allData.length →
        isStringHeaderRow (allData.getD 1 []) = false →
        (2 < allData.length → isStringHeaderRow (allData.getD 2 []) = false) →
        i < min 5 allData.length →
        2 ≤ (validCells (allData.getD i [])).length →
        (∀ k < i, (validCells (allData.getD k [])).length < 2) →
        detectHeaderRow allData = .ok (i, allData.getD i [])) ∧
    (∀ allData : List (List Cell), 2 ≤ allData.length →
        isStringHeaderRow (allData.getD 1 []) = false →
        (2 < allData.length → isStringHeaderRow (allData.getD 2 []) = false) →
        (∀ i < min 5 allData.length, (validCells (allData.getD i [])).length < 2) →
        detectHeaderRow allData = .error .headerNotFound) := by
  have hbranch : ∀ allData : List (List Cell), 2 ≤ allData.length →
      isStringHeaderRow (allData.getD 1 []) = false →
      (2 < allData.length → isStringHeaderRow (allData.getD 2 []) = false) →
      detectHeaderRow allData =
        (match scanRows (allData.take 5) 0 with
         | some i => .ok (i, allData.getD i [])
         | none => .error .headerNotFound) := by
    intro allData hlen h1 h2
    unfold detectHeaderRow
    rw [if_neg (by omega), h1]
    simp only [Bool.false_eq_true, if_false]
    by_cases hgt : 2 < allData.length
    · rw [h2 hgt]
      simp
    · rw [show (decide (allData.length > 2) && isStringHeaderRow (allData.getD 2 []))
            = false by
          simp only [Bool.and_eq_false_iff]
          left
          simpa using hgt]
      simp
  refine ⟨fun allData hlen => ?_, fun allData hlen h1 => ?_,
    fun allData hlen h1 hgt h2 => ?_, fun allData i hlen h1 h2 hi hgood hbad => ?_,
    fun allData hlen h1 h2 hall => ?_⟩
  · unfold detectHeaderRow
    rw [if_pos hlen]
  · unfold detectHeaderRow
    rw [if_neg (by omega), h1]
    simp
  · unfold detectHeaderRow
    rw [if_neg (by omega), h1]
    simp only [Bool.false_eq_true, if_false]
    rw [show (decide (allData.length > 2) && isStringHeaderRow (allData.getD 2 []))
          = true by rw [Bool.and_eq_true]; exact ⟨by simpa using hgt, h2⟩]
    simp
  · rw [hbranch allData hlen h1 h2]
    rw [scanRows_some_of_first (allData.take 5) 0 i
      (by rw [List.length_take]; exact hi)
      (by rw [getD_take allData 5 i [] (by omega)]; exact hgood)
      (fun k hk => by
        rw [getD_take allData 5 k [] (by omega)]
        exact hbad k hk)]
    simp
  · rw [hbranch allData hlen h1 h2]
    rw [scanRows_none_of_all (allData.take 5) 0 ?_]
    intro r hr
    obtain ⟨k, hk, hrk⟩ := List.mem_iff_getElem.mp hr
    rw [List.length_take] at hk
    have : (allData.take 5).getD k [] = r := by
      rw [List.getD_eq_getElem _ _ (by rw [List.length_take]; exact hk)]
      exact hrk
    rw [← this, getD_take allData 5 k [] (by omega)] at *
    exact hall k hk

theorem claim_C6_witness :
    detectHeaderRow
        [[Cell.str "Title"], [Cell.str "A", Cell.str "B", Cell.str "C"],
          [Cell.num 1, Cell.num 2, Cell.num 3]]
      = .ok (1, [Cell.str "A", Cell.str "B", Cell.str "C"]) :=
  claim_C6_header_detector.2.1
    [[Cell.str "Title"], [Cell.str "A", Cell.str "B", Cell.str "C"],
      [Cell.num 1, Cell.num 2, Cell.num 3]]
    (by decide) (by decide)

/-- C9: with unique headers, the Row Normalizer maps each data row to the
record zipping cell values to header names index-by-index (missing trailing
cells read as null) and drops exactly the rows whose every value is null;
every surviving row has a non-null value; and the `[["x","y"]]` /
`[[1,null],[null,null]]` example yields exactly `{x:1, y:null}`. -/
theorem claim_C9_row_normalizer :
    (∀ (headers : List String) (dataRows : List (List Cell)), headers.Nodup →
        normalizeRows headers dataRows
          = (dataRows.map (fun rd =>
                headers.enum.map (fun p => (p.2, rd.getD p.1 Cell.null)))).filter
              (fun row => (rowValues row).any (fun v => v ≠ Cell.null))) ∧
    (∀ (headers : List String) (dataRows : List (List Cell)),
        ∀ row ∈ normalizeRows headers dataRows,
          ∃ v ∈ rowValues row, v ≠ Cell.null) ∧
    normalizeRows ["x", "y"] [[Cell.num 1, Cell.null], [Cell.null, Cell.null]]
      = [[("x", Cell.num 1), ("y", Cell.null)]] := by
  refine ⟨fun headers dataRows hn => ?_, fun headers dataRows row hrow => ?_, by decide⟩
  · unfold normalizeRows
    congr 1
    exact List.map_congr_left (fun rd _ => buildRow_eq_zip headers rd hn)
  · unfold normalizeRows at hrow
    have := List.of_mem_filter hrow
    simpa [List.any_eq_true] using this

theorem claim_C9_witness :
    normalizeRows ["x", "y"] [[Cell.num 1, Cell.null], [Cell.null, Cell.null]]
      = ([[Cell.num 1, Cell.null], [Cell.null, Cell.null]].map (fun rd =>
            (["x", "y"] : List String).enum.map
              (fun p => (p.2, rd.getD p.1 Cell.null)))).filter
          (fun row => (rowValues row).any (fun v => v ≠ Cell.null)) :=
  claim_C9_row_normalizer.1 ["x", "y"]
    [[Cell.num 1, Cell.null], [Cell.null, Cell.null]] (by decide)

theorem claim_C10_witness :
    vwPaddingTop ROW_HEIGHT OVERSCAN_COUNT 0
      + (vwEndIndex ROW_HEIGHT OVERSCAN_COUNT 0 370 5
          - vwStartIndex ROW_HEIGHT OVERSCAN_COUNT 0 + 1) * ROW_HEIGHT
      + vwPaddingBottom ROW_HEIGHT OVERSCAN_COUNT 0 370 5
      = 5 * ROW_HEIGHT :=
  claim_C10_pad_invariant 0 370 5 (by decide) (by decide) (by decide) (by decide)

end SIAA
